import Mathlib

/-!
Shallow embedding of the Fintech ETL pipeline's transformation and
aggregation engine (src/dags/modules/transform2.py and
src/dags/modules/aggregated2.py).

Numeric model: pandas float columns are modelled by exact rationals
wrapped in a small IEEE-style value type FloatVal (finite, +inf, -inf,
NaN), so the divisions performed by the code keep their float
semantics: x/0 with x > 0 is +inf, 0/0 is NaN, and fillna(0)
replaces only NaN, never infinities.
-/

namespace Fintech

/-- An IEEE-754-style value: a finite rational, an infinity, or NaN. -/
inductive FloatVal where
  | num (q : ℚ)
  | inf
  | neginf
  | nan
deriving DecidableEq

def FloatVal.isNum : FloatVal → Bool
  | .num _ => true
  | _ => false

def FloatVal.toQ : FloatVal → ℚ
  | .num q => q
  | _ => 0

/-- Division of exact rationals with the special values numpy produces on
float columns: x/0 is +inf for x > 0, -inf for x < 0, NaN for 0/0. -/
def fdivQ (a b : ℚ) : FloatVal :=
  if b = 0 then (if a = 0 then FloatVal.nan else if 0 < a then FloatVal.inf else FloatVal.neginf)
  else FloatVal.num (a / b)

/-- Series.fillna(0): replaces NaN by 0.0 and leaves every other value,
infinities included. -/
def fillZero : FloatVal → FloatVal
  | .nan => .num 0
  | v => v

/-- Multiplication by a constant, used only with the positive factor 100
for percentage trends (inf * 100 = inf). -/
def fscale (k : ℚ) : FloatVal → FloatVal
  | .num q => .num (q * k)
  | .inf => .inf
  | .neginf => .neginf
  | .nan => .nan

def qmean (l : List ℚ) : ℚ := l.sum / (l.length : ℚ)

/-- pandas GroupBy.mean with skipna: NaNs are dropped; an empty remainder
gives NaN, mixed infinities give NaN, a single-signed infinity dominates. -/
def fmean (l : List FloatVal) : FloatVal :=
  let m := l.filter (fun v => decide (v ≠ FloatVal.nan))
  if m = [] then FloatVal.nan
  else if FloatVal.inf ∈ m then (if FloatVal.neginf ∈ m then FloatVal.nan else FloatVal.inf)
  else if FloatVal.neginf ∈ m then FloatVal.neginf
  else FloatVal.num (qmean (m.map FloatVal.toQ))

/-- Sample variance (ddof = 1), as pandas GroupBy.std squares it. -/
def sampleVar (l : List ℚ) : ℚ :=
  ((l.map (fun x => (x - qmean l) ^ 2)).sum) / ((l.length : ℚ) - 1)

/-- The result of pandas GroupBy.std, kept symbolically: NaN, or the
square root of a rational sample variance (the square root itself is
irrational in general, so it is carried as a constructor). -/
inductive StdVal where
  | nan
  | sqrtOf (v : ℚ)
deriving DecidableEq

/-- pandas GroupBy.std with ddof = 1 and skipna: NaNs dropped, at most one
remaining value gives NaN, any infinity gives NaN, otherwise the square
root of the sample variance. -/
def fstd (l : List FloatVal) : StdVal :=
  let m := l.filter (fun v => decide (v ≠ FloatVal.nan))
  if m.length ≤ 1 then StdVal.nan
  else if m.all FloatVal.isNum then StdVal.sqrtOf (sampleVar (m.map FloatVal.toQ))
  else StdVal.nan

/-! Transformation engine: transform_data in src/dags/modules/transform2.py.
Dates are modelled as naturals ordered like calendar dates (the code's
YYYYMMDD integer key is monotone in the date, so DateID is the date itself). -/

/-- One row of the raw extracted CSV: any numeric field may be missing. -/
structure RawRow where
  symbol : String
  companyName : String
  date : ℕ
  openPrice : Option ℚ
  high : Option ℚ
  low : Option ℚ
  closePrice : Option ℚ
  volume : Option ℤ
deriving DecidableEq

/-- A raw row after the fillna step (prices 0.0, Volume 0). -/
structure FilledRow where
  symbol : String
  companyName : String
  date : ℕ
  openPrice : ℚ
  high : ℚ
  low : ℚ
  closePrice : ℚ
  volume : ℤ
deriving DecidableEq

/-- A row after RecordID / CompanyID / DateID assignment, before the
duplicate drop and the DailyReturn computation. -/
structure BaseRow where
  recordID : String
  companyID : Option ℤ
  symbol : String
  companyName : String
  dateID : ℕ
  date : ℕ
  openPrice : ℚ
  high : ℚ
  low : ℚ
  closePrice : ℚ
  volume : ℤ
deriving DecidableEq

/-- The fully enriched row (the dataframe after line 136 of transform2.py),
still carrying PreviousClosePrice. -/
structure NormRow where
  recordID : String
  companyID : Option ℤ
  symbol : String
  companyName : String
  dateID : ℕ
  date : ℕ
  openPrice : ℚ
  high : ℚ
  low : ℚ
  closePrice : ℚ
  volume : ℤ
  previousClosePrice : Option ℚ
  dailyReturn : FloatVal
deriving DecidableEq

/-- The emitted column selection (lines 140-143): PreviousClosePrice is
dropped from the output. -/
structure OutRow where
  recordID : String
  companyID : Option ℤ
  symbol : String
  companyName : String
  dateID : ℕ
  date : ℕ
  openPrice : ℚ
  high : ℚ
  low : ℚ
  closePrice : ℚ
  volume : ℤ
  dailyReturn : FloatVal
deriving DecidableEq

/-- The hardcoded company-to-ID mapping of transform2.py. -/
def COMPANY_ID_MAP : List (String × ℤ) :=
  [("Apple Inc.", 1), ("Microsoft Corp.", 2), ("Alphabet Inc.", 3),
   ("Amazon.com Inc.", 4), ("Netflix Inc.", 5)]

/-- map_company_id: dict.get with default None. -/
def map_company_id (companyName : String) : Option ℤ :=
  (COMPANY_ID_MAP.find? (fun p => decide (p.1 = companyName))).map (fun p => p.2)

/-- Incremental cutoff (lines 84-92): with a watermark, keep rows whose
Date is strictly greater; without one, keep everything. -/
def filterByWatermark (batch : List RawRow) : Option ℕ → List RawRow
  | none => batch
  | some w => batch.filter (fun r => decide (w < r.date))

/-- fillna defaults (lines 96-102). -/
def fillRow (r : RawRow) : FilledRow :=
  { symbol := r.symbol, companyName := r.companyName, date := r.date,
    openPrice := r.openPrice.getD 0, high := r.high.getD 0, low := r.low.getD 0,
    closePrice := r.closePrice.getD 0, volume := r.volume.getD 0 }

/-- RecordID / CompanyID / DateID assignment for one row (lines 106-108). -/
def mkBaseRow (rid : String) (r : FilledRow) : BaseRow :=
  { recordID := rid, companyID := map_company_id r.companyName,
    symbol := r.symbol, companyName := r.companyName,
    dateID := r.date, date := r.date, openPrice := r.openPrice,
    high := r.high, low := r.low, closePrice := r.closePrice, volume := r.volume }

/-- Row-position-indexed RecordID assignment: the uuid4 supply is modelled
as an arbitrary function from the row position to a string. -/
def assignIDs (ids : ℕ → String) (l : List FilledRow) : List BaseRow :=
  l.enum.map (fun p => mkBaseRow (ids p.1) p.2)

/-- The drop_duplicates key (subset=[Symbol, Date]). -/
def rowKey (r : BaseRow) : String × ℕ := (r.symbol, r.date)

/-- drop_duplicates keep=first: keep a row iff its key was not seen before. -/
def dedupByKeys {α κ : Type} [DecidableEq κ] (key : α → κ) : List κ → List α → List α
  | _, [] => []
  | seen, a :: rest =>
    if key a ∈ seen then dedupByKeys key seen rest
    else a :: dedupByKeys key (key a :: seen) rest

def dedupBy {α κ : Type} [DecidableEq κ] (key : α → κ) (l : List α) : List α :=
  dedupByKeys key [] l

/-- DailyReturn before the NaN fill: (Close - Prev) / Prev, NaN when the
previous close is undefined. -/
def dailyReturnOf (close : ℚ) : Option ℚ → FloatVal
  | none => FloatVal.nan
  | some p => fdivQ (close - p) p

def mkNormRow (r : BaseRow) (prev : Option ℚ) (ret : FloatVal) : NormRow :=
  { recordID := r.recordID, companyID := r.companyID, symbol := r.symbol,
    companyName := r.companyName, dateID := r.dateID, date := r.date,
    openPrice := r.openPrice, high := r.high, low := r.low,
    closePrice := r.closePrice, volume := r.volume,
    previousClosePrice := prev, dailyReturn := ret }

/-- The close price of the most recent row with the given symbol among a
list of already-processed rows (most recent first). -/
def prevOf (acc : List BaseRow) (s : String) : Option ℚ :=
  (acc.find? (fun r => decide (r.symbol = s))).map (fun r => r.closePrice)

/-- groupby(Symbol).shift(1) followed by the return formula and fillna(0)
(lines 134-136): the accumulator holds the already-processed rows, most
recent first, so prevOf returns the nearest earlier same-symbol row in the
dataframe's row order. -/
def enrichAux : List BaseRow → List BaseRow → List NormRow
  | _, [] => []
  | acc, r :: rest =>
    mkNormRow r (prevOf acc r.symbol)
      (fillZero (dailyReturnOf r.closePrice (prevOf acc r.symbol))) :: enrichAux (r :: acc) rest

/-- The dataframe right after line 136 of transform2.py. -/
def transformEnriched (ids : ℕ → String) (batch : List RawRow) (w : Option ℕ) : List NormRow :=
  enrichAux [] (dedupBy rowKey (assignIDs ids ((filterByWatermark batch w).map fillRow)))

/-- Specification-side view of the shift: the close paired with the last
occurrence of a symbol in a (Symbol, ClosePrice) column prefix. -/
def prevInCol (col : List (String × ℚ)) (s : String) : Option ℚ :=
  (col.reverse.find? (fun q => decide (q.1 = s))).map (fun q => q.2)

def outOfNorm (r : NormRow) : OutRow :=
  { recordID := r.recordID, companyID := r.companyID, symbol := r.symbol,
    companyName := r.companyName, dateID := r.dateID, date := r.date,
    openPrice := r.openPrice, high := r.high, low := r.low,
    closePrice := r.closePrice, volume := r.volume, dailyReturn := r.dailyReturn }

/-- transform_data: the emitted normalized batch (column selection of
lines 140-143 applied to the enriched dataframe). -/
def transform_data (ids : ℕ → String) (batch : List RawRow) (w : Option ℕ) : List OutRow :=
  (transformEnriched ids batch w).map outOfNorm

/-! Aggregation engine: aggregate_data in src/dags/modules/aggregated2.py.
The input is the transformed CSV; RecordID, CompanyName and DateID are
passthrough columns never touched by aggregate_data and are omitted. -/

/-- One row of the aggregation input (the transformed CSV). CompanyID is
nullable: unknown companies carry NaN there. -/
structure TRow where
  companyID : Option ℤ
  symbol : String
  date : ℕ
  openPrice : ℚ
  high : ℚ
  low : ℚ
  closePrice : ℚ
  volume : ℤ
  dailyReturn : FloatVal
deriving DecidableEq

/-- Line 68: the DailyReturn column after fillna(0). -/
def filledReturn (r : TRow) : FloatVal := fillZero r.dailyReturn

/-- Line 72: AverageDailyPrice = (OpenPrice + ClosePrice) / 2. -/
def averageDailyPrice (r : TRow) : ℚ := (r.openPrice + r.closePrice) / 2

/-- The sorted distinct grouping keys pandas groupby(CompanyID) produces:
rows whose CompanyID is NaN belong to no group and are dropped. -/
def aggKeys (l : List TRow) : List ℤ :=
  List.insertionSort (fun a b => a ≤ b) (dedupBy id (l.filterMap (fun r => r.companyID)))

/-- The rows of one company's group, in dataframe order. -/
def groupRows (l : List TRow) (c : ℤ) : List TRow :=
  l.filter (fun r => decide (r.companyID = some c))

/-- The values a per-row column takes on one company's group, in dataframe
order (the column is given as a list aligned with the input rows). -/
def groupCol {γ : Type} (l : List TRow) (col : List γ) (c : ℤ) : List γ :=
  ((l.zip col).filter (fun p => decide (p.1.companyID = some c))).map (fun p => p.2)

/-- Lines 91-96: PreviousClosePrice = groupby(CompanyID).shift(1) of
ClosePrice in row order, then the return formula, then fillna(0). The
accumulator maps each company to its most recent close; rows with NaN
CompanyID belong to no group, get NaN, and leave the state untouched. -/
def recompAux : List (ℤ × ℚ) → List TRow → List FloatVal
  | _, [] => []
  | acc, r :: rest =>
    match r.companyID with
    | none => fillZero FloatVal.nan :: recompAux acc rest
    | some c =>
      let prev := (acc.find? (fun p => decide (p.1 = c))).map (fun p => p.2)
      fillZero (dailyReturnOf r.closePrice prev) :: recompAux ((c, r.closePrice) :: acc) rest

/-- The recomputed DailyReturn column (facets 3 and 4 consume this). -/
def recompReturns (l : List TRow) : List FloatVal := recompAux [] l

/-- The close-price history one company has accumulated so far, most
recent first. -/
def histOf (acc : List (ℤ × List ℚ)) (c : ℤ) : List ℚ :=
  ((acc.find? (fun p => decide (p.1 = c))).map (fun p => p.2)).getD []

/-- rolling(window=w).mean() at a row whose in-group close history
(current close first) is given: NaN (filled to 0) until w observations. -/
def maOf (w : ℕ) (closes : List ℚ) : ℚ :=
  if closes.length < w then 0 else (closes.take w).sum / (w : ℚ)

/-- pct_change(periods=5) * 100 at a row with the given in-group close
history (current close first), then fillna(0): NaN (hence 0) until the
sixth observation, and an infinity if the close five rows back is zero. -/
def trendOf (closes : List ℚ) : FloatVal :=
  match closes.get? 5 with
  | none => FloatVal.num 0
  | some p5 => fillZero (fscale 100 (fdivQ (closes.headD 0 - p5) p5))

/-- Lines 111-132: the per-row 5-day / 10-day moving-average and Trend
columns, computed within groupby(CompanyID) in row order; rows with NaN
CompanyID get NaN in each, filled to 0. -/
def histCols : List (ℤ × List ℚ) → List TRow → List (ℚ × ℚ × FloatVal)
  | _, [] => []
  | acc, r :: rest =>
    match r.companyID with
    | none => (0, 0, FloatVal.num 0) :: histCols acc rest
    | some c =>
      let closes := r.closePrice :: histOf acc c
      (maOf 5 closes, maOf 10 closes, trendOf closes) :: histCols ((c, closes) :: acc) rest

def histColsRun (l : List TRow) : List (ℚ × ℚ × FloatVal) := histCols [] l

def ma5Col (l : List TRow) : List ℚ := (histColsRun l).map (fun t => t.1)

def ma10Col (l : List TRow) : List ℚ := (histColsRun l).map (fun t => t.2.1)

def trendCol (l : List TRow) : List FloatVal := (histColsRun l).map (fun t => t.2.2)

/-- Line 141-142: High / Low per row with fillna(0). -/
def highOverLow (r : TRow) : FloatVal := fillZero (fdivQ r.high r.low)

/-- Facet 1 value for one company: mean AverageDailyPrice, total Volume,
mean of the (filled) incoming DailyReturn column. -/
def facetPerf (l : List TRow) (c : ℤ) : ℚ × ℤ × FloatVal :=
  (qmean ((groupRows l c).map averageDailyPrice),
   ((groupRows l c).map (fun r => r.volume)).sum,
   fmean ((groupRows l c).map filledReturn))

/-- Facet 2 value: total trading volume. -/
def facetTTV (l : List TRow) (c : ℤ) : ℤ :=
  ((groupRows l c).map (fun r => r.volume)).sum

/-- Facet 3 value: mean of the recomputed DailyReturn column. -/
def facetDR (l : List TRow) (c : ℤ) : FloatVal :=
  fmean (groupCol l (recompReturns l) c)

/-- Facet 4 value: std of the recomputed DailyReturn column. -/
def facetVol (l : List TRow) (c : ℤ) : StdVal :=
  fstd (groupCol l (recompReturns l) c)

/-- Facet 5 value: last row's 5-day and 10-day moving averages. -/
def facetMA (l : List TRow) (c : ℤ) : ℚ × ℚ :=
  ((groupCol l (ma5Col l) c).getLastD 0, (groupCol l (ma10Col l) c).getLastD 0)

/-- Facet 6 value: mean of the per-row Trend column. -/
def facetTrend (l : List TRow) (c : ℤ) : FloatVal :=
  fmean (groupCol l (trendCol l) c)

/-- Facet 7 value: mean of the per-row High/Low quotient column. -/
def facetHL (l : List TRow) (c : ℤ) : FloatVal :=
  fmean ((groupRows l c).map highOverLow)

/-- Facet 8 value: average volume. -/
def facetAvgVol (l : List TRow) (c : ℤ) : ℚ :=
  qmean ((groupRows l c).map (fun r => (r.volume : ℚ)))

def facet1 (l : List TRow) : List (ℤ × (ℚ × ℤ × FloatVal)) :=
  (aggKeys l).map (fun c => (c, facetPerf l c))

def facet2 (l : List TRow) : List (ℤ × ℤ) :=
  (aggKeys l).map (fun c => (c, facetTTV l c))

def facet3 (l : List TRow) : List (ℤ × FloatVal) :=
  (aggKeys l).map (fun c => (c, facetDR l c))

def facet4 (l : List TRow) : List (ℤ × StdVal) :=
  (aggKeys l).map (fun c => (c, facetVol l c))

def facet5 (l : List TRow) : List (ℤ × (ℚ × ℚ)) :=
  (aggKeys l).map (fun c => (c, facetMA l c))

def facet6 (l : List TRow) : List (ℤ × FloatVal) :=
  (aggKeys l).map (fun c => (c, facetTrend l c))

def facet7 (l : List TRow) : List (ℤ × FloatVal) :=
  (aggKeys l).map (fun c => (c, facetHL l c))

def facet8 (l : List TRow) : List (ℤ × ℚ) :=
  (aggKeys l).map (fun c => (c, facetAvgVol l c))

/-- pandas left merge on a key whose right occurrences are unique: each
left row picks up the first matching right payload, or None. -/
def leftJoin {κ α β : Type} [DecidableEq κ]
    (left : List (κ × α)) (right : List (κ × β)) : List (κ × α × Option β) :=
  left.map (fun p => (p.1, p.2, (right.find? (fun q => decide (q.1 = p.1))).map (fun q => q.2)))

/-- The merged wide row: the facet-1 payload joined left with the seven
remaining facets in the order of lines 157-163. -/
abbrev AggRow : Type :=
  ℤ × (((((((ℚ × ℤ × FloatVal) × Option ℤ) × Option FloatVal) × Option StdVal) ×
    Option (ℚ × ℚ)) × Option FloatVal) × Option FloatVal) × Option ℚ

/-- aggregate_data: the left-join chain of the eight facets on CompanyID. -/
def aggregate_data (l : List TRow) : List AggRow :=
  leftJoin (leftJoin (leftJoin (leftJoin (leftJoin (leftJoin (leftJoin
    (facet1 l) (facet2 l)) (facet3 l)) (facet4 l)) (facet5 l)) (facet6 l))
    (facet7 l)) (facet8 l)

def aggCompanyID (r : AggRow) : ℤ := r.1

def aggPerf (r : AggRow) : ℚ × ℤ × FloatVal := r.2.1.1.1.1.1.1.1

/-- Facet 1's DailyReturn mean as it sits in the merged row. -/
def aggDR1 (r : AggRow) : FloatVal := (aggPerf r).2.2

def aggTTV? (r : AggRow) : Option ℤ := r.2.1.1.1.1.1.1.2

/-- Facet 3's DailyReturn mean as it sits in the merged row. -/
def aggDR3? (r : AggRow) : Option FloatVal := r.2.1.1.1.1.1.2

def aggVol? (r : AggRow) : Option StdVal := r.2.1.1.1.1.2

def aggMA? (r : AggRow) : Option (ℚ × ℚ) := r.2.1.1.1.2

def aggTrend? (r : AggRow) : Option FloatVal := r.2.1.1.2

def aggHL? (r : AggRow) : Option FloatVal := r.2.1.2

def aggAvgVol? (r : AggRow) : Option ℚ := r.2.2

/-! Helper lemmas on the transformation pipeline. -/

theorem enrichAux_map {γ : Type} (g : NormRow → γ) (g' : BaseRow → γ)
    (h : ∀ r p v, g (mkNormRow r p v) = g' r) (acc l : List BaseRow) :
    (enrichAux acc l).map g = l.map g' := by
  induction l generalizing acc with
  | nil => rfl
  | cons r rest ih => simp [enrichAux, h, ih]

theorem enrichAux_get (l : List BaseRow) (acc : List BaseRow) (i : ℕ) (r : BaseRow)
    (h : l.get? i = some r) :
    (enrichAux acc l).get? i =
      some (mkNormRow r (prevOf ((l.take i).reverse ++ acc) r.symbol)
        (fillZero (dailyReturnOf r.closePrice (prevOf ((l.take i).reverse ++ acc) r.symbol)))) := by
  induction l generalizing acc i with
  | nil => simp at h
  | cons b rest ih =>
    cases i with
    | zero =>
      simp at h
      subst h
      simp [enrichAux]
    | succ j =>
      simp only [List.get?_cons_succ] at h
      have := ih (b :: acc) j h
      simpa [enrichAux, List.append_assoc] using this

theorem dedupByKeys_map {α β κ : Type} [DecidableEq κ] (f : α → β) (keyb : β → κ)
    (keya : α → κ) (hk : ∀ a, keyb (f a) = keya a) (seen : List κ) (l : List α) :
    dedupByKeys keyb seen (l.map f) = (dedupByKeys keya seen l).map f := by
  induction l generalizing seen with
  | nil => rfl
  | cons a rest ih =>
    by_cases hm : keya a ∈ seen <;> simp [dedupByKeys, hk, hm, ih]

theorem mem_dedupByKeys_id {κ : Type} [DecidableEq κ] (seen : List κ) (l : List κ) (a : κ) :
    a ∈ dedupByKeys id seen l ↔ a ∈ l ∧ a ∉ seen := by
  induction l generalizing seen with
  | nil => simp [dedupByKeys]
  | cons b rest ih =>
    by_cases hb : b ∈ seen
    · rw [show dedupByKeys id seen (b :: rest) = dedupByKeys id seen rest by
        simp [dedupByKeys, hb], ih]
      simp only [List.mem_cons]
      constructor
      · rintro ⟨h1, h2⟩
        exact ⟨Or.inr h1, h2⟩
      · rintro ⟨h1 | h1, h2⟩
        · exact absurd (h1 ▸ hb) h2
        · exact ⟨h1, h2⟩
    · rw [show dedupByKeys id seen (b :: rest) = b :: dedupByKeys id (b :: seen) rest by
        simp [dedupByKeys, hb]]
      simp only [List.mem_cons, ih]
      constructor
      · rintro (rfl | ⟨h1, h2⟩)
        · exact ⟨Or.inl rfl, hb⟩
        · exact ⟨Or.inr h1, fun hs => h2 (Or.inr hs)⟩
      · rintro ⟨rfl | h1, h2⟩
        · exact Or.inl rfl
        · by_cases hab : a = b
          · exact Or.inl hab
          · exact Or.inr ⟨h1, by simp [List.mem_cons, hab, h2]⟩

theorem nodup_dedupByKeys_id {κ : Type} [DecidableEq κ] (seen : List κ) (l : List κ) :
    (dedupByKeys id seen l).Nodup := by
  induction l generalizing seen with
  | nil => simp [dedupByKeys]
  | cons b rest ih =>
    by_cases hb : b ∈ seen
    · simpa [dedupByKeys, hb] using ih seen
    · rw [show dedupByKeys id seen (b :: rest) = b :: dedupByKeys id (b :: seen) rest by
        simp [dedupByKeys, hb]]
      refine List.nodup_cons.2 ⟨fun hmem => ?_, ih _⟩
      exact ((mem_dedupByKeys_id _ _ _).1 hmem).2 (List.mem_cons_self _ _)

/-- Occurrence count by decidable equality (kept explicit so that the
statement does not depend on an ambient BEq instance). -/
def countOcc {and : Type} [DecidableEq and] (a : and) (l : List and) : ℕ :=
  (l.filter (fun b => decide (b = a))).length

theorem countOcc_eq_of_nodup {and : Type} [DecidableEq and] (a : and) (l : List and)
    (hd : l.Nodup) : countOcc a l = if a ∈ l then 1 else 0 := by
  induction l with
  | nil => simp [countOcc]
  | cons b rest ih =>
    obtain ⟨hb, hrest⟩ := List.nodup_cons.1 hd
    by_cases hba : b = a
    · subst hba
      have hnot : b ∉ rest := hb
      rw [show countOcc b (b :: rest) = 1 + countOcc b rest by
        simp [countOcc, List.filter_cons, Nat.add_comm]]
      rw [ih hrest, if_neg hnot, if_pos (List.mem_cons_self _ _)]
    · rw [show countOcc a (b :: rest) = countOcc a rest by
        simp [countOcc, List.filter_cons, hba]]
      rw [ih hrest]
      have hiff : a ∈ b :: rest ↔ a ∈ rest :=
        ⟨fun h => (List.mem_cons.1 h).resolve_left (fun he => hba he.symm),
         fun h => List.mem_cons_of_mem _ h⟩
      simp only [hiff]

theorem countOcc_dedupByKeys_id {κ : Type} [DecidableEq κ] (seen : List κ) (l : List κ)
    (a : κ) : countOcc a (dedupByKeys id seen l) = if a ∈ l ∧ a ∉ seen then 1 else 0 := by
  rw [countOcc_eq_of_nodup a _ (nodup_dedupByKeys_id seen l)]
  by_cases hm : a ∈ l ∧ a ∉ seen
  · rw [if_pos hm, if_pos ((mem_dedupByKeys_id seen l a).2 hm)]
  · rw [if_neg hm, if_neg (fun hmem => hm ((mem_dedupByKeys_id seen l a).1 hmem))]

theorem dedupByKeys_find? {α κ : Type} [DecidableEq κ] (key : α → κ) (seen : List κ)
    (l : List α) (a : α) (ha : a ∈ dedupByKeys key seen l) :
    key a ∉ seen ∧ l.find? (fun b => decide (key b = key a)) = some a := by
  induction l generalizing seen with
  | nil => simp [dedupByKeys] at ha
  | cons b rest ih =>
    by_cases hb : key b ∈ seen
    · rw [show dedupByKeys key seen (b :: rest) = dedupByKeys key seen rest by
        simp [dedupByKeys, hb]] at ha
      obtain ⟨h1, h2⟩ := ih seen ha
      have hne : ¬ key b = key a := fun he => h1 (he ▸ hb)
      exact ⟨h1, by rw [List.find?_cons_of_neg _ (by simpa using hne)]; exact h2⟩
    · rw [show dedupByKeys key seen (b :: rest) = b :: dedupByKeys key (key b :: seen) rest by
        simp [dedupByKeys, hb]] at ha
      rcases List.mem_cons.1 ha with rfl | ha
      · exact ⟨hb, by rw [List.find?_cons_of_pos _ (by simp)]⟩
      · obtain ⟨h1, h2⟩ := ih (key b :: seen) ha
        have hba : ¬ key b = key a := fun he => h1 (by simp [he])
        refine ⟨fun hs => h1 (List.mem_cons_of_mem _ hs), ?_⟩
        rw [List.find?_cons_of_neg _ (by simpa using hba)]
        exact h2

theorem prevInCol_map (lb : List BaseRow) (s : String) :
    prevInCol (lb.map (fun r => (r.symbol, r.closePrice))) s = prevOf lb.reverse s := by
  unfold prevInCol prevOf
  rw [← List.map_reverse, List.find?_map]
  simp [Function.comp, Option.map_map]
  rfl

theorem transform_pairs (ids : ℕ → String) (batch : List RawRow) (w : Option ℕ) :
    (transform_data ids batch w).map (fun r => (r.symbol, r.date)) =
      dedupBy id ((filterByWatermark batch w).map (fun r => (r.symbol, r.date))) := by
  unfold transform_data transformEnriched dedupBy
  rw [List.map_map]
  rw [show ((fun r : OutRow => (r.symbol, r.date)) ∘ outOfNorm) =
    (fun r : NormRow => (r.symbol, r.date)) from rfl]
  rw [enrichAux_map _ (fun r : BaseRow => (r.symbol, r.date)) (fun r p v => rfl)]
  rw [← dedupByKeys_map (fun r : BaseRow => (r.symbol, r.date)) id rowKey (fun a => rfl)]
  congr 1
  unfold assignIDs
  rw [List.map_map]
  rw [show ((fun r : BaseRow => (r.symbol, r.date)) ∘ fun p : ℕ × FilledRow =>
    mkBaseRow (ids p.1) p.2) = ((fun r : FilledRow => (r.symbol, r.date)) ∘ Prod.snd) from rfl]
  rw [← List.map_map, List.enum_map_snd, List.map_map]
  rfl

theorem enrichAux_length (acc l : List BaseRow) : (enrichAux acc l).length = l.length := by
  induction l generalizing acc with
  | nil => rfl
  | cons r rest ih => simp [enrichAux, ih]

/-! RecordID erasure: the machinery for two-run determinism. -/

def eraseBaseId (r : BaseRow) : BaseRow := { r with recordID := "" }

def eraseNormId (r : NormRow) : NormRow := { r with recordID := "" }

def eraseOutId (r : OutRow) : OutRow := { r with recordID := "" }

theorem prevOf_erase (acc : List BaseRow) (s : String) :
    prevOf (acc.map eraseBaseId) s = prevOf acc s := by
  unfold prevOf
  rw [List.find?_map]
  simp [Function.comp, Option.map_map, eraseBaseId]
  rfl

theorem enrichAux_erase (l acc : List BaseRow) :
    (enrichAux acc l).map eraseNormId = enrichAux (acc.map eraseBaseId) (l.map eraseBaseId) := by
  induction l generalizing acc with
  | nil => rfl
  | cons r rest ih =>
    simp only [List.map_cons, enrichAux, prevOf_erase]
    rw [show eraseBaseId r :: acc.map eraseBaseId = (r :: acc).map eraseBaseId from rfl, ← ih]
    rfl

theorem assignIDs_erase (ids : ℕ → String) (l : List FilledRow) :
    (assignIDs ids l).map eraseBaseId = l.map (mkBaseRow "") := by
  unfold assignIDs
  rw [List.map_map]
  rw [show (eraseBaseId ∘ fun p : ℕ × FilledRow => mkBaseRow (ids p.1) p.2) =
    ((mkBaseRow "") ∘ Prod.snd) from rfl]
  rw [← List.map_map, List.enum_map_snd]

theorem transform_erase (ids : ℕ → String) (batch : List RawRow) (w : Option ℕ) :
    (transform_data ids batch w).map eraseOutId =
      (enrichAux [] (dedupBy rowKey (((filterByWatermark batch w).map fillRow).map
        (mkBaseRow "")))).map outOfNorm := by
  unfold transform_data transformEnriched
  rw [List.map_map, show (eraseOutId ∘ outOfNorm) = (outOfNorm ∘ eraseNormId) from rfl,
    ← List.map_map, enrichAux_erase]
  unfold dedupBy
  rw [← dedupByKeys_map eraseBaseId rowKey rowKey (fun a => rfl), assignIDs_erase]
  rfl

/-! Claims C1, C2, C4, C5, C9 about the transformation engine. -/

/-- A shared uuid4 stand-in and the concrete batches the counterexamples
and witnesses evaluate the pipeline on. -/
def demoIds : ℕ → String := fun _ => ""

def demoBatch1 : List RawRow :=
  [{ symbol := "A", companyName := "Apple Inc.", date := 2, openPrice := some 1, high := some 1,
     low := some 1, closePrice := some 5, volume := some 1 },
   { symbol := "A", companyName := "Apple Inc.", date := 1, openPrice := some 1, high := some 1,
     low := some 1, closePrice := some 0, volume := some 1 },
   { symbol := "A", companyName := "Apple Inc.", date := 3, openPrice := some 1, high := some 1,
     low := some 1, closePrice := some 7, volume := some 1 }]

/-- C1: the claim requires, for the partition of symbol A ordered by Date
ascending, that the chronologically first row (Date 1) have a null
PreviousClosePrice and DailyReturn 0.0, and that a zero divisor always
store 0.0. On demoBatch1 the code gives the Date-1 row PreviousClosePrice
5 (the prior row in file order) and DailyReturn -1, and the Date-3 row,
whose divisor PreviousClosePrice is 0, stores +inf, not 0.0. -/
theorem claim1_cex :
    (transformEnriched demoIds demoBatch1 none).map
        (fun r => (r.date, r.previousClosePrice, r.dailyReturn)) =
      [(2, none, FloatVal.num 0), (1, some 5, FloatVal.num (-1)), (3, some 0, FloatVal.inf)] ∧
    (∀ r ∈ transformEnriched demoIds demoBatch1 none, 1 ≤ r.date) ∧
    FloatVal.num (-1) ≠ FloatVal.num 0 ∧ FloatVal.inf ≠ FloatVal.num 0 := by
  refine ⟨?_, ?_, by decide, by decide⟩
  · norm_num [transformEnriched, dedupBy, dedupByKeys, assignIDs, enrichAux, filterByWatermark,
      fillRow, mkBaseRow, mkNormRow, rowKey, map_company_id, COMPANY_ID_MAP, dailyReturnOf,
      fdivQ, fillZero, prevOf, demoBatch1, demoIds, List.enum, List.enumFrom]
  · intro r hr
    revert hr
    norm_num [transformEnriched, dedupBy, dedupByKeys, assignIDs, enrichAux, filterByWatermark,
      fillRow, mkBaseRow, mkNormRow, rowKey, map_company_id, COMPANY_ID_MAP, dailyReturnOf,
      fdivQ, fillZero, prevOf, demoBatch1, demoIds, List.enum, List.enumFrom]
    rintro (rfl | rfl | rfl) <;> decide

/-- C1 (amended): in the enriched batch, PreviousClosePrice is the
ClosePrice of the nearest earlier row with the same Symbol in the
dataframe's row order (the post-deduplication file order, with no sort on
Date), null when no such row exists; DailyReturn is the filled quotient:
0.0 when PreviousClosePrice is null, (Close - Prev)/Prev when the divisor
is nonzero, and an infinity (not 0.0) when the divisor is zero and the
numerator is not. -/
theorem claim1_thm (ids : ℕ → String) (batch : List RawRow) (w : Option ℕ) (i : ℕ)
    (r : NormRow) (h : (transformEnriched ids batch w).get? i = some r) :
    r.previousClosePrice = prevInCol (((transformEnriched ids batch w).take i).map
        (fun x => (x.symbol, x.closePrice))) r.symbol
    ∧ r.dailyReturn = fillZero (dailyReturnOf r.closePrice r.previousClosePrice)
    ∧ (r.previousClosePrice = none → r.dailyReturn = FloatVal.num 0)
    ∧ (∀ p : ℚ, r.previousClosePrice = some p → p ≠ 0 →
        r.dailyReturn = FloatVal.num ((r.closePrice - p) / p))
    ∧ (r.previousClosePrice = some 0 → r.closePrice ≠ 0 →
        r.dailyReturn = FloatVal.inf ∨ r.dailyReturn = FloatVal.neginf) := by
  have hout : transformEnriched ids batch w =
      enrichAux [] (dedupBy rowKey (assignIDs ids ((filterByWatermark batch w).map fillRow))) := rfl
  set lb := dedupBy rowKey (assignIDs ids ((filterByWatermark batch w).map fillRow)) with hlb
  have hilen : i < lb.length := by
    have h1 : i < (enrichAux [] lb).length := List.get?_eq_some.1 (hout ▸ h) |>.1
    rwa [enrichAux_length] at h1
  obtain ⟨rb, hrb⟩ : ∃ rb, lb.get? i = some rb := ⟨lb.get ⟨i, hilen⟩, List.get?_eq_get hilen⟩
  have hchar := enrichAux_get lb [] i rb hrb
  rw [List.append_nil] at hchar
  rw [hout] at h
  rw [hchar] at h
  have hr : r = mkNormRow rb (prevOf (lb.take i).reverse rb.symbol)
      (fillZero (dailyReturnOf rb.closePrice (prevOf (lb.take i).reverse rb.symbol))) :=
    (Option.some.inj h).symm
  have hcol : ((transformEnriched ids batch w).take i).map (fun x => (x.symbol, x.closePrice)) =
      (lb.take i).map (fun x => (x.symbol, x.closePrice)) := by
    rw [hout, List.map_take, List.map_take]
    rw [enrichAux_map (fun x : NormRow => (x.symbol, x.closePrice))
      (fun x : BaseRow => (x.symbol, x.closePrice)) (fun r p v => rfl)]
  subst hr
  refine ⟨?_, rfl, ?_, ?_, ?_⟩
  · rw [hcol, prevInCol_map]
    rfl
  · intro hnone
    show fillZero (dailyReturnOf rb.closePrice (prevOf (lb.take i).reverse rb.symbol)) = _
    rw [show prevOf (lb.take i).reverse rb.symbol = none from hnone]
    rfl
  · intro p hp hpne
    show fillZero (dailyReturnOf rb.closePrice (prevOf (lb.take i).reverse rb.symbol)) = _
    rw [show prevOf (lb.take i).reverse rb.symbol = some p from hp]
    simp [dailyReturnOf, fdivQ, hpne, fillZero, mkNormRow]
  · intro hp hcne
    show fillZero (dailyReturnOf rb.closePrice (prevOf (lb.take i).reverse rb.symbol)) =
        FloatVal.inf ∨ _
    rw [show prevOf (lb.take i).reverse rb.symbol = some 0 from hp]
    have hcne2 : (rb.closePrice : ℚ) ≠ 0 := hcne
    by_cases hpos : 0 < rb.closePrice
    · left
      simp [dailyReturnOf, fdivQ, fillZero, hcne2, hpos, mkNormRow]
    · right
      simp [dailyReturnOf, fdivQ, fillZero, hcne2, hpos, mkNormRow]

/-- The enriched row the C1 witness instantiates the theorem at: row 1 of
demoBatch1 (symbol A, Date 1). -/
def demoRow1 : NormRow :=
  { recordID := "", companyID := some 1, symbol := "A", companyName := "Apple Inc.",
    dateID := 1, date := 1, openPrice := 1, high := 1, low := 1, closePrice := 0,
    volume := 1, previousClosePrice := some 5, dailyReturn := FloatVal.num (-1) }

theorem claim1_wit :
    (transformEnriched demoIds demoBatch1 none).get? 1 = some demoRow1 ∧
    (demoRow1.previousClosePrice = prevInCol (((transformEnriched demoIds demoBatch1 none).take 1).map
        (fun x => (x.symbol, x.closePrice))) demoRow1.symbol
    ∧ demoRow1.dailyReturn = fillZero (dailyReturnOf demoRow1.closePrice demoRow1.previousClosePrice)
    ∧ (demoRow1.previousClosePrice = none → demoRow1.dailyReturn = FloatVal.num 0)
    ∧ (∀ p : ℚ, demoRow1.previousClosePrice = some p → p ≠ 0 →
        demoRow1.dailyReturn = FloatVal.num ((demoRow1.closePrice - p) / p))
    ∧ (demoRow1.previousClosePrice = some 0 → demoRow1.closePrice ≠ 0 →
        demoRow1.dailyReturn = FloatVal.inf ∨ demoRow1.dailyReturn = FloatVal.neginf)) := by
  have hh : (transformEnriched demoIds demoBatch1 none).get? 1 = some demoRow1 := by
    norm_num [transformEnriched, dedupBy, dedupByKeys, assignIDs, enrichAux, filterByWatermark,
      fillRow, mkBaseRow, mkNormRow, rowKey, map_company_id, COMPANY_ID_MAP, dailyReturnOf,
      fdivQ, fillZero, prevOf, demoBatch1, demoIds, demoRow1, List.enum, List.enumFrom]
  exact ⟨hh, claim1_thm demoIds demoBatch1 none 1 demoRow1 hh⟩

def demoBatch2 : List RawRow :=
  [{ symbol := "MSFT", companyName := "Microsoft Corp.", date := 1, openPrice := some 1,
     high := some 1, low := some 1, closePrice := some 5, volume := some 1 },
   { symbol := "AAPL", companyName := "Apple Inc.", date := 1, openPrice := some 1,
     high := some 1, low := some 1, closePrice := some 5, volume := some 1 }]

/-- C2: the claim requires the emitted batch to be ordered by CompanyID
ascending, but on demoBatch2 the output carries CompanyIDs [2, 1]: the
code only reorders columns, never rows. -/
theorem claim2_cex :
    (transform_data demoIds demoBatch2 none).map (fun r => r.companyID) = [some 2, some 1] ∧
    ¬ List.Sorted (fun a b : Option ℤ => a.getD 0 ≤ b.getD 0)
        ((transform_data demoIds demoBatch2 none).map (fun r => r.companyID)) := by
  have h : (transform_data demoIds demoBatch2 none).map (fun r => r.companyID) =
      [some 2, some 1] := by
    norm_num [transform_data, outOfNorm, transformEnriched, dedupBy, dedupByKeys, assignIDs,
      enrichAux, filterByWatermark, fillRow, mkBaseRow, mkNormRow, rowKey, map_company_id,
      COMPANY_ID_MAP, dailyReturnOf, fdivQ, fillZero, prevOf, demoBatch2, demoIds,
      List.enum, List.enumFrom]
    all_goals decide
  refine ⟨h, ?_⟩
  rw [h]
  decide

/-- C2 (amended): the emitted batch keeps the post-filter first-occurrence
row order of the input; its (Symbol, Date) sequence is exactly the
first-seen deduplication of the filtered input's (Symbol, Date) sequence,
and no reordering by CompanyID or Date is performed. -/
theorem claim2_thm (ids : ℕ → String) (batch : List RawRow) (w : Option ℕ) :
    (transform_data ids batch w).map (fun r => (r.symbol, r.date)) =
      dedupBy id ((filterByWatermark batch w).map (fun r => (r.symbol, r.date))) :=
  transform_pairs ids batch w

/-- C4: with a watermark, the cutoff keeps exactly the rows whose Date is
strictly greater (multiplicity preserved), every emitted row's Date lies
strictly past the watermark, and a batch whose dates are all at or before
the watermark normalizes to zero rows. -/
theorem claim4_thm (ids : ℕ → String) (batch : List RawRow) (w : ℕ) :
    (∀ r : RawRow, (filterByWatermark batch (some w)).count r =
      if w < r.date then batch.count r else 0)
    ∧ (∀ r ∈ transform_data ids batch (some w), w < r.date)
    ∧ ((∀ r ∈ batch, r.date ≤ w) → transform_data ids batch (some w) = []) := by
  refine ⟨?_, ?_, ?_⟩
  · intro r
    by_cases hd : w < r.date
    · rw [if_pos hd, filterByWatermark, List.count_filter (by simpa using hd)]
    · rw [if_neg hd, List.count_eq_zero]
      intro hmem
      exact hd (by simpa using (List.mem_filter.1 hmem).2)
  · intro r hr
    have hp : (r.symbol, r.date) ∈ (transform_data ids batch (some w)).map
        (fun x => (x.symbol, x.date)) := List.mem_map_of_mem _ hr
    rw [transform_pairs] at hp
    have hp2 := ((mem_dedupByKeys_id _ _ _).1 hp).1
    obtain ⟨raw, hraw, heq⟩ := List.mem_map.1 hp2
    have hdate := (List.mem_filter.1 hraw).2
    have : raw.date = r.date := congrArg Prod.snd heq
    rw [← this]
    simpa using hdate
  · intro hall
    have hfil : filterByWatermark batch (some w) = [] := by
      simp only [filterByWatermark, List.filter_eq_nil_iff]
      intro a ha
      simpa using Nat.not_lt.2 (hall a ha)
    unfold transform_data transformEnriched
    rw [hfil]
    rfl

def demoBatch4 : List RawRow :=
  [{ symbol := "A", companyName := "Apple Inc.", date := 1, openPrice := some 1, high := some 1,
     low := some 1, closePrice := some 5, volume := some 1 },
   { symbol := "A", companyName := "Apple Inc.", date := 2, openPrice := some 1, high := some 1,
     low := some 1, closePrice := some 6, volume := some 1 }]

theorem claim4_wit :
    (∀ r ∈ demoBatch4, r.date ≤ 2) ∧ transform_data demoIds demoBatch4 (some 2) = [] :=
  ⟨by decide, (claim4_thm demoIds demoBatch4 2).2.2 (by decide)⟩

/-- C5: every (Symbol, Date) pair of the filtered input appears exactly
once in the emitted batch (and no other pair appears), and each surviving
row is the first row of the pre-deduplication stage bearing its key. -/
theorem claim5_thm (ids : ℕ → String) (batch : List RawRow) (w : Option ℕ) :
    (∀ p : String × ℕ,
      countOcc p ((transform_data ids batch w).map (fun r => (r.symbol, r.date))) =
        if p ∈ (filterByWatermark batch w).map (fun r => (r.symbol, r.date)) then 1 else 0)
    ∧ (∀ b ∈ dedupBy rowKey (assignIDs ids ((filterByWatermark batch w).map fillRow)),
        (assignIDs ids ((filterByWatermark batch w).map fillRow)).find?
          (fun x => decide (rowKey x = rowKey b)) = some b) := by
  constructor
  · intro p
    rw [transform_pairs]
    unfold dedupBy
    rw [countOcc_dedupByKeys_id]
    simp
  · intro b hb
    exact (dedupByKeys_find? rowKey [] _ b hb).2

def demoBatch5 : List RawRow :=
  [{ symbol := "A", companyName := "Apple Inc.", date := 1, openPrice := some 1, high := some 1,
     low := some 1, closePrice := some 5, volume := some 1 },
   { symbol := "A", companyName := "Apple Inc.", date := 1, openPrice := some 2, high := some 2,
     low := some 2, closePrice := some 9, volume := some 2 }]

/-- The kept base row of demoBatch5: the first of the two duplicate
(A, 1) rows. -/
def demoKept5 : BaseRow :=
  { recordID := "", companyID := some 1, symbol := "A", companyName := "Apple Inc.",
    dateID := 1, date := 1, openPrice := 1, high := 1, low := 1, closePrice := 5, volume := 1 }

theorem claim5_wit :
    demoKept5 ∈ dedupBy rowKey (assignIDs demoIds ((filterByWatermark demoBatch5 none).map fillRow)) ∧
    (assignIDs demoIds ((filterByWatermark demoBatch5 none).map fillRow)).find?
      (fun x => decide (rowKey x = rowKey demoKept5)) = some demoKept5 := by
  have hm : demoKept5 ∈ dedupBy rowKey
      (assignIDs demoIds ((filterByWatermark demoBatch5 none).map fillRow)) := by decide
  exact ⟨hm, (claim5_thm demoIds demoBatch5 none).2 demoKept5 hm⟩

/-- C9: two runs on the same batch and watermark agree on every column
except RecordID: erasing the RecordID column yields identical outputs
whatever the two runs' uuid supplies are. -/
theorem claim9_thm (ids idt : ℕ → String) (batch : List RawRow) (w : Option ℕ) :
    (transform_data ids batch w).map eraseOutId = (transform_data idt batch w).map eraseOutId := by
  rw [transform_erase ids, transform_erase idt]

/-! Helper lemmas on the aggregation engine. -/

theorem find?_map_keys {κ β : Type} [DecidableEq κ] (keys : List κ) (v : κ → β) (c : κ)
    (hc : c ∈ keys) :
    (keys.map (fun k => (k, v k))).find? (fun q => decide (q.1 = c)) = some (c, v c) := by
  induction keys with
  | nil => simp at hc
  | cons k ks ih =>
    rcases List.mem_cons.1 hc with rfl | hc2
    · rw [List.map_cons, List.find?_cons_of_pos _ (by simp)]
    · by_cases hkc : k = c
      · subst hkc
        rw [List.map_cons, List.find?_cons_of_pos _ (by simp)]
      · rw [List.map_cons, List.find?_cons_of_neg _ (by simpa using hkc)]
        exact ih hc2

theorem leftJoin_maps {κ α β : Type} [DecidableEq κ] (keys : List κ) (a : κ → α) (b : κ → β) :
    leftJoin (keys.map fun c => (c, a c)) (keys.map fun c => (c, b c)) =
      keys.map (fun c => (c, a c, some (b c))) := by
  unfold leftJoin
  rw [List.map_map]
  refine List.map_congr_left (fun c hc => ?_)
  simp only [Function.comp]
  rw [find?_map_keys keys b c hc]
  rfl

/-- The wide row the merge produces for one company. -/
def aggRowFor (l : List TRow) (c : ℤ) : AggRow :=
  (c, (((((((facetPerf l c, some (facetTTV l c)), some (facetDR l c)), some (facetVol l c)),
    some (facetMA l c)), some (facetTrend l c)), some (facetHL l c)), some (facetAvgVol l c)))

/-- The left-join chain collapses: one merged row per grouping key. -/
theorem aggregate_data_eq (l : List TRow) :
    aggregate_data l = (aggKeys l).map (aggRowFor l) := by
  unfold aggregate_data facet1 facet2 facet3 facet4 facet5 facet6 facet7 facet8
  simp only [leftJoin_maps]
  rfl

theorem aggKeys_nodup (l : List TRow) : (aggKeys l).Nodup := by
  unfold aggKeys
  exact ((List.perm_insertionSort _ _).nodup_iff).2 (nodup_dedupByKeys_id _ _)

theorem mem_aggKeys (l : List TRow) (c : ℤ) :
    c ∈ aggKeys l ↔ ∃ r ∈ l, r.companyID = some c := by
  unfold aggKeys dedupBy
  rw [(List.perm_insertionSort _ _).mem_iff, mem_dedupByKeys_id]
  simp [List.mem_filterMap]

/-! Claims C3, C6, C7, C8, C10 about the aggregation engine. -/

/-- A one-row aggregation input (CompanyID 1). -/
def demoAggSingle : List TRow :=
  [{ companyID := some 1, symbol := "AAPL", date := 1, openPrice := 1, high := 2, low := 1,
     closePrice := 10, volume := 3, dailyReturn := FloatVal.num 0 }]

/-- C3: on a batch whose CompanyID-1 group has exactly one row, the
reported VolatilityIndex is NaN (pandas sample std of a single value,
never filled), not the 0.0 the specification requires. -/
theorem claim3_eval :
    (aggregate_data demoAggSingle).map aggVol? = [some StdVal.nan]
    ∧ (groupRows demoAggSingle 1).length = 1
    ∧ (some StdVal.nan : Option StdVal) ≠ some (StdVal.sqrtOf 0) := by
  refine ⟨?_, by decide, by decide⟩
  norm_num [aggregate_data, leftJoin, facet1, facet2, facet3, facet4, facet5, facet6, facet7,
    facet8, facetPerf, facetTTV, facetDR, facetVol, facetMA, facetTrend, facetHL, facetAvgVol,
    aggKeys, groupRows, groupCol, recompReturns, recompAux, histColsRun, histCols, histOf,
    ma5Col, ma10Col, trendCol, maOf, trendOf, highOverLow, fmean, fstd, qmean, sampleVar,
    fillZero, fdivQ, fscale, dailyReturnOf, filledReturn, averageDailyPrice, dedupBy,
    dedupByKeys, aggVol?, demoAggSingle, List.insertionSort, List.orderedInsert,
    FloatVal.isNum, FloatVal.toQ]
  all_goals decide

/-- C7: the merged aggregate has exactly one row per distinct (non-null)
CompanyID of the input, in the grouping-key order, and no facet's payload
is missing from any merged row: the left-join chain loses and introduces
no company. -/
theorem claim7_thm (l : List TRow) :
    ((aggregate_data l).map aggCompanyID = aggKeys l)
    ∧ (aggKeys l).Nodup
    ∧ (∀ c : ℤ, c ∈ aggKeys l ↔ ∃ r ∈ l, r.companyID = some c)
    ∧ (∀ row ∈ aggregate_data l,
        (aggTTV? row).isSome ∧ (aggDR3? row).isSome ∧ (aggVol? row).isSome ∧
        (aggMA? row).isSome ∧ (aggTrend? row).isSome ∧ (aggHL? row).isSome ∧
        (aggAvgVol? row).isSome) := by
  refine ⟨?_, aggKeys_nodup l, mem_aggKeys l, ?_⟩
  · rw [aggregate_data_eq, List.map_map]
    rw [show (aggCompanyID ∘ aggRowFor l) = id from rfl, List.map_id]
  · intro row hrow
    rw [aggregate_data_eq] at hrow
    obtain ⟨c, hc, rfl⟩ := List.mem_map.1 hrow
    exact ⟨rfl, rfl, rfl, rfl, rfl, rfl, rfl⟩

/-- The merged row aggregate_data produces on demoAggSingle. -/
def demoAggRowSingle : AggRow :=
  (1, (((((((11 / 2, 3, FloatVal.num 0), some 3), some (FloatVal.num 0)), some StdVal.nan),
    some (0, 0)), some (FloatVal.num 0)), some (FloatVal.num 2)), some 3)

theorem claim7_wit :
    demoAggRowSingle ∈ aggregate_data demoAggSingle ∧
    ((aggTTV? demoAggRowSingle).isSome ∧ (aggDR3? demoAggRowSingle).isSome ∧
     (aggVol? demoAggRowSingle).isSome ∧ (aggMA? demoAggRowSingle).isSome ∧
     (aggTrend? demoAggRowSingle).isSome ∧ (aggHL? demoAggRowSingle).isSome ∧
     (aggAvgVol? demoAggRowSingle).isSome) := by
  have hm : demoAggRowSingle ∈ aggregate_data demoAggSingle := by
    have he : aggregate_data demoAggSingle = [demoAggRowSingle] := by
      simp [aggregate_data, leftJoin, facet1, facet2, facet3, facet4, facet5, facet6,
        facet7, facet8, facetPerf, facetTTV, facetDR, facetVol, facetMA, facetTrend, facetHL,
        facetAvgVol, aggKeys, groupRows, groupCol, recompReturns, recompAux, histColsRun,
        histCols, histOf, ma5Col, ma10Col, trendCol, maOf, trendOf, highOverLow, fmean, fstd,
        qmean, sampleVar, fillZero, fdivQ, fscale, dailyReturnOf, filledReturn,
        averageDailyPrice, dedupBy, dedupByKeys, demoAggSingle, demoAggRowSingle,
        List.insertionSort, List.orderedInsert, FloatVal.isNum, FloatVal.toQ]
      all_goals norm_num
    rw [he]
    exact List.mem_singleton.2 rfl
  exact ⟨hm, (claim7_thm demoAggSingle).2.2.2 demoAggRowSingle hm⟩

/-! Null-CompanyID exclusion: machinery for C10. -/

/-- Rows whose CompanyID resolved (pandas groupby keeps exactly these). -/
def nonNullID (r : TRow) : Bool := decide (r.companyID ≠ none)

theorem filterMap_companyID_filter (l : List TRow) :
    (l.filter nonNullID).filterMap (fun r => r.companyID) =
      l.filterMap (fun r => r.companyID) := by
  induction l with
  | nil => rfl
  | cons r rest ih =>
    cases hr : r.companyID with
    | none => simp [List.filter_cons, nonNullID, hr, List.filterMap_cons, ih]
    | some k => simp [List.filter_cons, nonNullID, hr, List.filterMap_cons, ih]

theorem aggKeys_filter (l : List TRow) : aggKeys (l.filter nonNullID) = aggKeys l := by
  unfold aggKeys
  rw [filterMap_companyID_filter]

theorem groupRows_filter (l : List TRow) (c : ℤ) :
    groupRows (l.filter nonNullID) c = groupRows l c := by
  induction l with
  | nil => rfl
  | cons r rest ih =>
    cases hr : r.companyID with
    | none => simpa [groupRows, List.filter_cons, nonNullID, hr] using ih
    | some k => by_cases hkc : k = c <;>
        simpa [groupRows, List.filter_cons, nonNullID, hr, hkc] using ih

theorem recompAux_filter (l : List TRow) (acc : List (ℤ × ℚ)) (c : ℤ) :
    (((l.filter nonNullID).zip (recompAux acc (l.filter nonNullID))).filter
        (fun p => decide (p.1.companyID = some c))).map (fun p => p.2) =
      ((l.zip (recompAux acc l)).filter
        (fun p => decide (p.1.companyID = some c))).map (fun p => p.2) := by
  induction l generalizing acc with
  | nil => rfl
  | cons r rest ih =>
    cases hr : r.companyID with
    | none => simp [List.filter_cons, nonNullID, hr, recompAux, ih]
    | some k => by_cases hkc : k = c <;>
        simp [List.filter_cons, nonNullID, hr, recompAux, hkc, ih]

theorem histCols_filter (l : List TRow) (acc : List (ℤ × List ℚ)) (c : ℤ) :
    (((l.filter nonNullID).zip (histCols acc (l.filter nonNullID))).filter
        (fun p => decide (p.1.companyID = some c))).map (fun p => p.2) =
      ((l.zip (histCols acc l)).filter
        (fun p => decide (p.1.companyID = some c))).map (fun p => p.2) := by
  induction l generalizing acc with
  | nil => rfl
  | cons r rest ih =>
    cases hr : r.companyID with
    | none => simp [List.filter_cons, nonNullID, hr, histCols, ih]
    | some k => by_cases hkc : k = c <;>
        simp [List.filter_cons, nonNullID, hr, histCols, hkc, ih]

theorem groupCol_map {γ δ : Type} (f : γ → δ) (l : List TRow) (col : List γ) (c : ℤ) :
    groupCol l (col.map f) c = (groupCol l col c).map f := by
  induction l generalizing col with
  | nil => rfl
  | cons r rest ih =>
    cases col with
    | nil => rfl
    | cons v vs =>
      by_cases hc : r.companyID = some c <;>
        simpa [groupCol, hc, List.map_map, Function.comp] using ih vs

/-- C10: rows whose CompanyID is null take part in no facet and no merged
row: dropping them from the input does not change the aggregate at all,
so an unresolved company is silently absent from the output. -/
theorem claim10_thm (l : List TRow) :
    aggregate_data (l.filter nonNullID) = aggregate_data l := by
  rw [aggregate_data_eq, aggregate_data_eq, aggKeys_filter]
  refine List.map_congr_left (fun c hc => ?_)
  unfold aggRowFor facetPerf facetTTV facetDR facetVol facetMA facetTrend facetHL facetAvgVol
  rw [groupRows_filter]
  unfold recompReturns ma5Col ma10Col trendCol histColsRun
  simp only [groupCol_map]
  rw [show groupCol (l.filter nonNullID) (recompAux [] (l.filter nonNullID)) c =
      groupCol l (recompAux [] l) c from recompAux_filter l [] c]
  rw [show groupCol (l.filter nonNullID) (histCols [] (l.filter nonNullID)) c =
      groupCol l (histCols [] l) c from histCols_filter l [] c]

/-! Facet 1 versus facet 3: machinery for C8. -/

theorem groupCol_map_self {γ : Type} (f : TRow → γ) (l : List TRow) (c : ℤ) :
    groupCol l (l.map f) c = (groupRows l c).map f := by
  induction l with
  | nil => rfl
  | cons r rest ih =>
    by_cases hc : r.companyID = some c <;>
      simpa [groupCol, groupRows, List.filter_cons, hc, List.map_map, Function.comp] using ih

def demoAgg8 : List TRow :=
  [{ companyID := some 1, symbol := "AAPL", date := 1, openPrice := 1, high := 2, low := 1,
     closePrice := 10, volume := 3, dailyReturn := FloatVal.num 7 }]

/-- C8: the claim requires the merged row's two DailyReturn figures to be
equal, but on demoAgg8 facet 1 averages the incoming DailyReturn column
(7) while facet 3 recomputes the column from ClosePrice (first row of the
group, so 0 after the NaN fill): the merged row carries 7 and 0. -/
theorem claim8_cex :
    (aggregate_data demoAgg8).map (fun row => (aggDR1 row, aggDR3? row)) =
      [(FloatVal.num 7, some (FloatVal.num 0))] ∧
    FloatVal.num 7 ≠ FloatVal.num 0 := by
  refine ⟨?_, by decide⟩
  simp [aggregate_data, leftJoin, facet1, facet2, facet3, facet4, facet5, facet6, facet7,
    facet8, facetPerf, facetTTV, facetDR, facetVol, facetMA, facetTrend, facetHL, facetAvgVol,
    aggKeys, groupRows, groupCol, recompReturns, recompAux, histColsRun, histCols, histOf,
    ma5Col, ma10Col, trendCol, maOf, trendOf, highOverLow, fmean, fstd, qmean, sampleVar,
    fillZero, fdivQ, fscale, dailyReturnOf, filledReturn, averageDailyPrice, dedupBy,
    dedupByKeys, aggDR1, aggDR3?, aggPerf, demoAgg8, List.insertionSort, List.orderedInsert,
    FloatVal.isNum, FloatVal.toQ]

/-- C8 (amended): facet 1 averages the incoming DailyReturn column after
the NaN fill, while facet 3 averages a recomputation of that column from
ClosePrice by a row-order shift within CompanyID; the merged row's two
figures agree exactly when, on the company's group, the filled incoming
column coincides with the recomputed one (as it does for an untouched
pipeline batch whose Symbol partitions match its CompanyID partitions),
and differ in general. -/
theorem claim8_thm (l : List TRow) (c : ℤ)
    (h : (groupRows l c).map filledReturn = groupCol l (recompReturns l) c) :
    ∀ row ∈ aggregate_data l, aggCompanyID row = c → aggDR3? row = some (aggDR1 row) := by
  intro row hrow hkey
  rw [aggregate_data_eq] at hrow
  obtain ⟨k, hk, rfl⟩ := List.mem_map.1 hrow
  have hkc : k = c := hkey
  subst hkc
  show some (facetDR l k) = some (facetPerf l k).2.2
  rw [show (facetPerf l k).2.2 = fmean ((groupRows l k).map filledReturn) from rfl, h]
  rfl

theorem claim8_wit :
    ((groupRows demoAggSingle 1).map filledReturn =
      groupCol demoAggSingle (recompReturns demoAggSingle) 1) ∧
    demoAggRowSingle ∈ aggregate_data demoAggSingle ∧
    aggDR3? demoAggRowSingle = some (aggDR1 demoAggRowSingle) := by
  have h1 : (groupRows demoAggSingle 1).map filledReturn =
      groupCol demoAggSingle (recompReturns demoAggSingle) 1 := by decide
  have hm : demoAggRowSingle ∈ aggregate_data demoAggSingle := by
    have he : aggregate_data demoAggSingle = [demoAggRowSingle] := by
      simp [aggregate_data, leftJoin, facet1, facet2, facet3, facet4, facet5, facet6,
        facet7, facet8, facetPerf, facetTTV, facetDR, facetVol, facetMA, facetTrend, facetHL,
        facetAvgVol, aggKeys, groupRows, groupCol, recompReturns, recompAux, histColsRun,
        histCols, histOf, ma5Col, ma10Col, trendCol, maOf, trendOf, highOverLow, fmean, fstd,
        qmean, sampleVar, fillZero, fdivQ, fscale, dailyReturnOf, filledReturn,
        averageDailyPrice, dedupBy, dedupByKeys, demoAggSingle, demoAggRowSingle,
        List.insertionSort, List.orderedInsert, FloatVal.isNum, FloatVal.toQ]
      all_goals norm_num
    rw [he]
    exact List.mem_singleton.2 rfl
  exact ⟨h1, hm, claim8_thm demoAggSingle 1 h1 demoAggRowSingle hm rfl⟩

/-! Moving-average / trend sentinel behaviour: machinery for C6. -/

theorem histOf_cons_self (k : ℤ) (h : List ℚ) (acc : List (ℤ × List ℚ)) :
    histOf ((k, h) :: acc) k = h := by
  simp [histOf]

theorem histOf_cons_ne (k c : ℤ) (hkc : ¬ k = c) (h : List ℚ) (acc : List (ℤ × List ℚ)) :
    histOf ((k, h) :: acc) c = histOf acc c := by
  simp [histOf, hkc]

theorem histCols_get_some (l : List TRow) (acc : List (ℤ × List ℚ)) (i : ℕ) (r : TRow)
    (c : ℤ) (hr : l.get? i = some r) (hc : r.companyID = some c) :
    (histCols acc l).get? i = some
      (maOf 5 (r.closePrice :: ((((l.take i).filter (fun x => decide (x.companyID = some c))).map
          (fun x => x.closePrice)).reverse ++ histOf acc c)),
       maOf 10 (r.closePrice :: ((((l.take i).filter (fun x => decide (x.companyID = some c))).map
          (fun x => x.closePrice)).reverse ++ histOf acc c)),
       trendOf (r.closePrice :: ((((l.take i).filter (fun x => decide (x.companyID = some c))).map
          (fun x => x.closePrice)).reverse ++ histOf acc c))) := by
  induction l generalizing acc i with
  | nil => simp at hr
  | cons b rest ih =>
    cases i with
    | zero =>
      simp only [List.get?_cons_zero, Option.some.injEq] at hr
      subst hr
      simp [histCols, hc]
    | succ j =>
      simp only [List.get?_cons_succ] at hr
      cases hb : b.companyID with
      | none =>
        have hih := ih acc j hr
        have hpc : (fun x : TRow => decide (x.companyID = some c)) b = false := by
          simp [hb]
        simp only [histCols, hb, List.get?_cons_succ, List.take_succ_cons,
          List.filter_cons, hpc]
        simpa using hih
      | some k =>
        by_cases hkc : k = c
        · subst hkc
          have hih := ih ((k, b.closePrice :: histOf acc k) :: acc) j hr
          rw [histOf_cons_self] at hih
          have hpc : (fun x : TRow => decide (x.companyID = some k)) b = true := by
            simp [hb]
          simp only [histCols, hb, List.get?_cons_succ, List.take_succ_cons,
            List.filter_cons, hpc, List.map_cons, List.reverse_cons, List.append_assoc,
            List.singleton_append]
          simpa using hih
        · have hih := ih ((k, b.closePrice :: histOf acc k) :: acc) j hr
          rw [histOf_cons_ne k c hkc] at hih
          simp only [histCols, hb, List.get?_cons_succ, List.take_succ_cons,
            List.filter_cons]
          simpa [hkc] using hih

theorem filter_take_lt (l : List TRow) (i : ℕ) (r : TRow) (hr : l.get? i = some r)
    (p : TRow → Bool) (hp : p r = true) :
    ((l.take i).filter p).length + 1 ≤ (l.filter p).length := by
  obtain ⟨hi, hget⟩ := List.get?_eq_some.1 hr
  conv_rhs => rw [← List.take_append_drop i l]
  rw [List.filter_append, List.length_append, List.drop_eq_get_cons hi, hget,
    List.filter_cons, hp]
  simp

def demoAgg6row (s : String) (d : ℕ) : TRow :=
  { companyID := some 1, symbol := s, date := d, openPrice := 1, high := 1, low := 1,
    closePrice := 10, volume := 1, dailyReturn := FloatVal.num 0 }

def demoAgg6 : List TRow :=
  [demoAgg6row "A" 1, demoAgg6row "A" 2, demoAgg6row "A" 3, demoAgg6row "B" 4,
   demoAgg6row "B" 5]

/-- C6: the claim partitions by Symbol, but the code partitions by
CompanyID. In demoAgg6 symbol B's partition has only 2 rows (fewer than
5), yet its second row is the fifth row of the CompanyID-1 group and gets
the computed 5-day moving average 10, not the 0.0 sentinel. -/
theorem claim6_cex :
    (demoAgg6.filter (fun r => decide (r.symbol = "B"))).length = 2
    ∧ (demoAgg6.get? 4).map (fun r => r.symbol) = some "B"
    ∧ (ma5Col demoAgg6).get? 4 = some 10
    ∧ (10 : ℚ) ≠ 0 := by
  refine ⟨by decide, by decide, ?_, by norm_num⟩
  simp [ma5Col, histColsRun, histCols, histOf, maOf, trendOf, fdivQ, fillZero, fscale,
    demoAgg6, demoAgg6row]
  norm_num

/-- C6 (amended): the window columns are partitioned by CompanyID (not
Symbol), in row order. A row of company c preceded by fewer than 4 rows
of the same company carries the 0.0 sentinel as its 5-day moving average;
one preceded by fewer than 5 carries the 0.0 sentinel as its Trend; in
particular, when the whole CompanyID group has fewer than 5 rows, every
one of its rows carries 0.0 in both columns. -/
theorem claim6_thm (l : List TRow) (c : ℤ) (i : ℕ) (r : TRow)
    (hr : l.get? i = some r) (hc : r.companyID = some c) :
    ((((l.take i).filter (fun x => decide (x.companyID = some c))).length + 1 < 5 →
        (ma5Col l).get? i = some 0)
    ∧ (((l.take i).filter (fun x => decide (x.companyID = some c))).length < 5 →
        (trendCol l).get? i = some (FloatVal.num 0))
    ∧ ((groupRows l c).length < 5 →
        (ma5Col l).get? i = some 0 ∧ (trendCol l).get? i = some (FloatVal.num 0))) := by
  have hchar := histCols_get_some l [] i r c hr hc
  rw [show histOf [] c = [] from rfl, List.append_nil] at hchar
  have hlen : (r.closePrice :: (((l.take i).filter
      (fun x => decide (x.companyID = some c))).map (fun x => x.closePrice)).reverse).length =
      ((l.take i).filter (fun x => decide (x.companyID = some c))).length + 1 := by
    simp
  have hma : ((l.take i).filter (fun x => decide (x.companyID = some c))).length + 1 < 5 →
      (ma5Col l).get? i = some 0 := by
    intro hlt
    rw [ma5Col, List.get?_map, show histColsRun l = histCols [] l from rfl, hchar]
    simp only [Option.map_some']
    rw [maOf, if_pos (by rw [hlen]; exact hlt)]
  have htr : ((l.take i).filter (fun x => decide (x.companyID = some c))).length < 5 →
      (trendCol l).get? i = some (FloatVal.num 0) := by
    intro hlt
    rw [trendCol, List.get?_map, show histColsRun l = histCols [] l from rfl, hchar]
    simp only [Option.map_some']
    rw [trendOf]
    rw [show (r.closePrice :: (((l.take i).filter
        (fun x => decide (x.companyID = some c))).map (fun x => x.closePrice)).reverse).get? 5 =
        none from List.get?_eq_none.2 (by rw [hlen]; omega)]
  refine ⟨hma, htr, fun hgr => ?_⟩
  have hble := filter_take_lt l i r hr (fun x => decide (x.companyID = some c)) (by simp [hc])
  have hglen : (l.filter (fun x => decide (x.companyID = some c))).length < 5 := hgr
  exact ⟨hma (by omega), htr (by omega)⟩

theorem claim6_wit :
    demoAggSingle.get? 0 = some
      { companyID := some 1, symbol := "AAPL", date := 1, openPrice := 1, high := 2, low := 1,
        closePrice := 10, volume := 3, dailyReturn := FloatVal.num 0 } ∧
    (groupRows demoAggSingle 1).length < 5 ∧
    (ma5Col demoAggSingle).get? 0 = some 0 ∧
    (trendCol demoAggSingle).get? 0 = some (FloatVal.num 0) := by
  have hr : demoAggSingle.get? 0 = some
      { companyID := some 1, symbol := "AAPL", date := 1, openPrice := 1, high := 2, low := 1,
        closePrice := 10, volume := 3, dailyReturn := FloatVal.num 0 } := rfl
  have hgr : (groupRows demoAggSingle 1).length < 5 := by decide
  have happ := (claim6_thm demoAggSingle 1 0 _ hr rfl).2.2 hgr
  exact ⟨hr, hgr, happ.1, happ.2⟩

end Fintech
